import Mathlib

/-!
Verification of the NodeCG shared Replicant core (the abstract replicant
class and its mutation-interception proxy layer), shallowly embedded in
Lean.

Conventions of the embedding:
* JavaScript values are modelled by `JsValue`, a JSON-compatible tree
  extended with `undefined`; composite nodes (arrays and objects) carry a
  numeric identity token standing for their JS reference identity, so
  that the strict equality `===` used by the proxy traps is expressible
  (`strictEq`).
* The process-wide weak registries of the proxy layer are modelled by
  `ProxyState`; membership of a replicant in the module-level
  `ignoringProxy` weak set is the Boolean field `ignoring` of `Replicant`.
* Stateful trap code is modelled by explicit state passing; a thrown
  exception is the `TrapResult.threw` constructor, paired with the state
  at the throw point.  Side effects whose relative order matters are
  additionally reported as a `TrapEffect` trace.
-/

namespace Nodecg

/-- A JSON-compatible JavaScript value, extended with `undefined`.
Composite nodes carry an identity token (`Nat`) modelling JS reference
identity; the token takes part only in `strictEq` and in the proxy-layer
registries, never in shape computations. -/
inductive JsValue where
  | undefined
  | null
  | bool (b : Bool)
  | num (n : Int)
  | str (s : String)
  | arr (id : Nat) (elems : List JsValue)
  | obj (id : Nat) (fields : List (String × JsValue))

/-- JS strict equality `===`: value equality on primitives, reference
(identity-token) equality on composites. -/
def strictEq : JsValue → JsValue → Bool
  | .undefined, .undefined => true
  | .null, .null => true
  | .bool a, .bool b => a == b
  | .num a, .num b => a == b
  | .str a, .str b => a == b
  | .arr i _, .arr j _ => i == j
  | .obj i _, .obj j _ => i == j
  | _, _ => false

/-- True on array and object nodes; mirrors the JS test
`typeof v === 'object' && v !== null`. -/
def isObjectLike : JsValue → Bool
  | .arr _ _ => true
  | .obj _ _ => true
  | _ => false

/-- True exactly on `undefined`. -/
def isUndefinedJs : JsValue → Bool
  | .undefined => true
  | _ => false

/-- Parses a non-empty all-digit character list as a decimal number. -/
def parseDigits : List Char → Nat → Option Nat
  | [], acc => some acc
  | c :: r, acc =>
    if '0' ≤ c ∧ c ≤ '9' then parseDigits r (acc * 10 + (c.toNat - '0'.toNat))
    else none

/-- Interprets a property key as an array index: a non-empty decimal
string (non-canonical forms such as "01" are not distinguished from
their canonical value — no claim exercises them). -/
def parseIndex (key : String) : Option Nat :=
  match key.data with
  | [] => none
  | l => parseDigits l 0

/-- Property read on a node, as an `Option`.  Objects look up the first
matching key; arrays accept a decimal index (the special `length`
property is not modelled — no claim exercises it). -/
def getProp (v : JsValue) (key : String) : Option JsValue :=
  match v with
  | .obj _ fields => fields.lookup key
  | .arr _ elems =>
    match parseIndex key with
    | some i => elems.get? i
    | none => none
  | _ => none

/-- Property read with JS semantics: a missing property reads as
`undefined`. -/
def getPropJs (v : JsValue) (key : String) : JsValue :=
  (getProp v key).getD .undefined

/-- Models `{}.hasOwnProperty.call(target, prop)`. -/
def hasOwnProp (v : JsValue) (key : String) : Bool :=
  match v with
  | .obj _ fields => (fields.lookup key).isSome
  | .arr _ elems =>
    match parseIndex key with
    | some i => i < elems.length
    | none => false
  | _ => false

/-- Replaces the value of the first occurrence of `key`. -/
def updateFirst (fields : List (String × JsValue)) (key : String) (v : JsValue) :
    List (String × JsValue) :=
  match fields with
  | [] => []
  | (k, w) :: rest =>
    if k = key then (k, v) :: rest else (k, w) :: updateFirst rest key v

/-- Removes the first occurrence of `key`. -/
def removeFirst (fields : List (String × JsValue)) (key : String) :
    List (String × JsValue) :=
  match fields with
  | [] => []
  | (k, w) :: rest =>
    if k = key then rest else (k, w) :: removeFirst rest key

/-- Property write `target[prop] = v` on a single node.  On arrays,
writing past the end fills the gap with holes (`undefined`); string-keyed
array properties and writes to primitives are left as no-ops (neither is
exercised by any claim). -/
def setProp (t : JsValue) (key : String) (v : JsValue) : JsValue :=
  match t with
  | .obj id fields =>
    if (fields.lookup key).isSome then .obj id (updateFirst fields key v)
    else .obj id (fields ++ [(key, v)])
  | .arr id elems =>
    match parseIndex key with
    | some i =>
      if i < elems.length then .arr id (elems.set i v)
      else .arr id (elems ++ List.replicate (i - elems.length) .undefined ++ [v])
    | none => t
  | _ => t

/-- Property delete `delete target[prop]` on a single node.  Deleting an
array index leaves a hole (`undefined`) and does not change the length, as
in JS. -/
def delProp (t : JsValue) (key : String) : JsValue :=
  match t with
  | .obj id fields => .obj id (removeFirst fields key)
  | .arr id elems =>
    match parseIndex key with
    | some i => if i < elems.length then .arr id (elems.set i .undefined) else t
    | none => t
  | _ => t

/-- Models `objectPath.get(value, pathArr)`: walk the path, `none` when a
segment is missing (JS `undefined`). -/
def getPath (v : JsValue) (path : List String) : Option JsValue :=
  match path with
  | [] => some v
  | k :: rest => (getProp v k).bind (fun c => getPath c rest)

/-- Replaces the node sitting at `path` (used to thread an in-place
mutation of a sub-target back into the root tree).  A missing path
leaves the tree unchanged. -/
def setNodeAtPath (v : JsValue) (path : List String) (newNode : JsValue) : JsValue :=
  match path with
  | [] => newNode
  | k :: rest =>
    match getProp v k with
    | some child => setProp v k (setNodeAtPath child rest newNode)
    | none => v

/-- Models `objectPath.set(value, pathArr, newV)`.  Missing intermediate
nodes are created as empty objects (object-path creates arrays for
numeric keys; that refinement is not exercised by any claim, and created
nodes get identity token 0 — identity is not tracked on this code path). -/
def objectPathSet (v : JsValue) (path : List String) (newV : JsValue) : JsValue :=
  match path with
  | [] => newV
  | [k] => setProp v k newV
  | k :: rest =>
    match getProp v k with
    | some child => setProp v k (objectPathSet child rest newV)
    | none => setProp v k (objectPathSet (.obj 0 []) rest newV)

/-! Path strings.  The proxy layer addresses nodes with slash-delimited
paths whose segments escape `/` as `~1`.  The string operations of the
source (`replace(/\//g, '~1')`, `replace(/~1/g, '/')`, `split('/')`,
`substr(1)`, `endsWith('/')`) are embedded as operations on the
character list underlying the `String`. -/

/-- Models `key.replace(/\//g, '~1')` on the character list: every `/`
becomes the two characters `~1`. -/
def escCh : List Char → List Char
  | [] => []
  | c :: r => if c = '/' then '~' :: '1' :: escCh r else c :: escCh r

/-- Models `part.replace(/~1/g, '/')` on the character list: scanning
left to right, each non-overlapping occurrence of `~1` becomes `/`. -/
def unescCh : List Char → List Char
  | [] => []
  | [c] => [c]
  | c1 :: c2 :: r =>
    if c1 = '~' ∧ c2 = '1' then '/' :: unescCh r
    else c1 :: unescCh (c2 :: r)

/-- Models `str.split('/')` on the character list. -/
def splitSlash : List Char → List (List Char)
  | [] => [[]]
  | c :: r =>
    if c = '/' then [] :: splitSlash r
    else
      match splitSlash r with
      | [] => [[c]]
      | s :: ss => (c :: s) :: ss

/-- Detects an occurrence of the substring `~1`. -/
def hasSubstrT1 : List Char → Bool
  | [] => false
  | [_] => false
  | c1 :: c2 :: r =>
    if c1 = '~' ∧ c2 = '1' then true else hasSubstrT1 (c2 :: r)

/-- The source's key escaping (`key.replace(/\//g, '~1')`,
`proxyRecursive` line 572). -/
def escapeKey (k : String) : String := ⟨escCh k.data⟩

/-- The source's segment unescaping (`part.replace(/~1/g, '/')`,
`pathStrToPathArr`). -/
def unescapeSegment (s : String) : String := ⟨unescCh s.data⟩

/-- Source `joinPathParts`: `part1.endsWith('/') ? part1 + part2 :
part1 + '/' + part2`. -/
def joinPathParts (p1 p2 : String) : String :=
  if p1.data.getLast? = some '/' then ⟨p1.data ++ p2.data⟩
  else ⟨p1.data ++ '/' :: p2.data⟩

/-- Source `pathStrToPathArr`: drop the leading character (`substr(1)`),
split on `/`, unescape `~1` in every segment; a result that is exactly
one empty segment becomes the empty path. -/
def pathStrToPathArr (p : String) : List String :=
  let parts := (splitSlash (p.data.drop 1)).map (fun cs => (⟨unescCh cs⟩ : String))
  if parts = [""] then [] else parts

/-- The path a node acquires when the value root is proxied at path `/`
and `proxyRecursive` descends along `keys` (lines 566-579 of the source;
the root path `/` itself is supplied by the `value` setter, which lives
outside the shared file — per the spec, operation paths are `/`-rooted). -/
def pathOfKeys (keys : List String) : String :=
  keys.foldl (fun p k => joinPathParts p (escapeKey k)) "/"

/-! The operation record.  The `method` field is kept as a string because
`_applyOperation` dispatches on the string (`ARRAY_MUTATOR_METHODS
.includes(operation.method)`, then a `switch`).  The `args` payload is a
sum of the shapes that actually occur. -/

/-- The `args` payload of an `Operation`.  `mutatorList` is the shape the
trap code actually enqueues for array mutators
(`Array.prototype.slice.call(args)`); `propMutatorArgs` is the shape the
`Operation` type declaration announces for them (`{ prop; mutatorArgs }`)
— the runtime never constructs it. -/
inductive OpArgs where
  | newValueOnly (newValue : JsValue)
  | propOnly (prop : String)
  | propNewValue (prop : String) (newValue : JsValue)
  | mutatorList (mutatorArgs : List JsValue)
  | propMutatorArgs (prop : String) (mutatorArgs : List JsValue)

/-- One mutation record. -/
structure Operation where
  path : String
  method : String
  args : OpArgs

/-- Reading `operation.args` as the argument array of
`Function.prototype.apply`: a non-array payload supplies no arguments. -/
def argsAsList : OpArgs → List JsValue
  | .mutatorList l => l
  | _ => []

/-- Reading `operation.args.newValue` in JS: `undefined` when the field
is absent. -/
def argsNewValueJs : OpArgs → JsValue
  | .newValueOnly v => v
  | .propNewValue _ v => v
  | _ => .undefined

/-- Reading `operation.args.prop` in JS and then using it as a property
key: an absent field reads as `undefined`, which JS coerces to the
string "undefined" when used as a key. -/
def argsPropJs : OpArgs → String
  | .propOnly p => p
  | .propNewValue p _ => p
  | .propMutatorArgs p _ => p
  | _ => "undefined"

/-- The array-mutator method names recognized by the proxy layer
(source `ARRAY_MUTATOR_METHODS`). -/
def ARRAY_MUTATOR_METHODS : List String :=
  ["copyWithin", "fill", "pop", "push", "reverse", "shift", "sort", "splice", "unshift"]

/-! The replicant record and its validation gate. -/

/-- Replicant lifecycle status. -/
inductive Status where
  | undeclared
  | declaring
  | declared
deriving DecidableEq

/-- The options record; `none` models an omitted (undefined) field. -/
structure OptionsT where
  persistent : Option Bool
  persistenceInterval : Option Nat
  schemaPath : Option String
  defaultValue : Option JsValue

/-- Source `DEFAULT_PERSISTENCE_INTERVAL` (100 ms). -/
def DEFAULT_PERSISTENCE_INTERVAL : Nat := 100

/-- The compiled JSON-schema validator produced by `is-my-json-valid`:
a Boolean check plus a deterministic error report for a failing value.
Both are abstract functions of the checked value. -/
structure CompiledValidator where
  check : JsValue → Bool
  errorsFor : JsValue → List String

/-- The state of one replicant, as far as the shared file observes it.
`ignoring` is membership in the module-level `ignoringProxy` weak set. -/
structure Replicant where
  name : String
  nsp : String
  opts : OptionsT
  revision : Nat
  status : Status
  schema : Option CompiledValidator
  validationErrors : List String
  value : JsValue
  operationQueue : List Operation
  ignoring : Bool

/-- Outcome of a trap or method call: a returned value or a thrown
exception. -/
inductive TrapResult where
  | ok (b : Bool)
  | threw (msg : String)
deriving DecidableEq

/-- The message of the schema-rejection error thrown by the generated
validator (shortened: the per-error detail lines are not modelled). -/
def validationMessage (name nsp : String) : String :=
  "Invalid value rejected for replicant " ++ name ++ " in namespace " ++ nsp

/-- Options destructured by the generated validator
(`{ throwOnInvalid = true } = {}`). -/
structure ValidatorOptionsT where
  throwOnInvalid : Option Bool

/-- The replicant's `validate` member.  Without a schema it is the stub
(source lines 186-188): it returns `true` and touches nothing.  With a
schema it is the function returned by `_generateValidator`: on failure it
records `validationErrors` and, when `throwOnInvalid` (default `true`),
throws. -/
def validateCall (r : Replicant) (v : JsValue) (opts : ValidatorOptionsT) :
    TrapResult × Replicant :=
  match r.schema with
  | none => (.ok true, r)
  | some sv =>
    if sv.check v then (.ok true, r)
    else
      let r1 := { r with validationErrors := sv.errorsFor v }
      if opts.throwOnInvalid.getD true then
        (.threw (validationMessage r.name r.nsp), r1)
      else (.ok false, r1)

/-! ECMA semantics of the nine recognized array mutators, as invoked by
the traps and by `_applyOperation` (`arr[method].apply(arr, args)`).
Index arguments follow ToIntegerOrInfinity plus relative-index clamping;
string-to-number coercion of index arguments is not modelled (no claim
passes string indices).  Return values of the mutators are not modelled
(no claim observes them). -/

/-- ToIntegerOrInfinity on the argument kinds that occur. -/
def jsToInt : JsValue → Int
  | .num n => n
  | .bool b => if b then 1 else 0
  | _ => 0

/-- Relative-index resolution: a negative index counts from the end;
the result is clamped to `[0, len]`. -/
def relIndex (n : Int) (len : Nat) : Nat :=
  if n < 0 then ((len : Int) + n).toNat else min n.toNat len

/-- Optional index argument number `i`, with default `dflt` when the
argument is absent or `undefined`. -/
def optIndexArg (args : List JsValue) (i : Nat) (dflt : Nat) (len : Nat) : Nat :=
  match args.get? i with
  | none => dflt
  | some .undefined => dflt
  | some v => relIndex (jsToInt v) len

mutual

/-- The string form of a value as used by the default sort comparator
(ECMA ToString; objects print as "[object Object]", arrays join their
elements with commas, `null`/`undefined` elements join as empty). -/
def jsDefaultString : JsValue → String
  | .undefined => "undefined"
  | .null => "null"
  | .bool b => if b then "true" else "false"
  | .num n => toString n
  | .str s => s
  | .arr _ elems => jsJoinComma elems
  | .obj _ _ => "[object Object]"

/-- Comma join used by `Array.prototype.toString`. -/
def jsJoinComma : List JsValue → String
  | [] => ""
  | [x] =>
    match x with
    | .undefined => ""
    | .null => ""
    | x => jsDefaultString x
  | x :: xs =>
    (match x with
     | .undefined => ""
     | .null => ""
     | x => jsDefaultString x) ++ "," ++ jsJoinComma xs

end

/-- Stable insertion into a sorted list (insert after equal elements). -/
def sortInsert (le : JsValue → JsValue → Bool) (x : JsValue) :
    List JsValue → List JsValue
  | [] => [x]
  | y :: ys => if le y x then y :: sortInsert le x ys else x :: y :: ys

/-- Stable insertion sort. -/
def sortList (le : JsValue → JsValue → Bool) : List JsValue → List JsValue
  | [] => []
  | x :: xs => sortInsert le x (sortList le xs)

/-- One recognized array mutator applied to the element list, per ECMA.
`sort` models only the default comparator (a comparator function is not
a JSON value and cannot be enqueued); undefined elements sort to the
end. -/
def applyArrayMutator (method : String) (xs : List JsValue) (args : List JsValue) :
    List JsValue :=
  let len := xs.length
  if method = "push" then xs ++ args
  else if method = "pop" then xs.dropLast
  else if method = "shift" then xs.tail
  else if method = "unshift" then args ++ xs
  else if method = "reverse" then xs.reverse
  else if method = "sort" then
    let defined := xs.filter (fun v => !isUndefinedJs v)
    let undefs := xs.filter (fun v => isUndefinedJs v)
    sortList (fun a b => decide (jsDefaultString a ≤ jsDefaultString b)) defined ++ undefs
  else if method = "fill" then
    let value := (args.get? 0).getD .undefined
    let start := optIndexArg args 1 0 len
    let fin := optIndexArg args 2 len len
    List.zipWith (fun i v => if start ≤ i ∧ i < fin then value else v)
      (List.range len) xs
  else if method = "splice" then
    let start := optIndexArg args 0 0 len
    let deleteCount :=
      match args.get? 1 with
      | none => if args.isEmpty then 0 else len - start
      | some v => min (max (jsToInt v) 0).toNat (len - start)
    let items := args.drop 2
    xs.take start ++ items ++ xs.drop (start + deleteCount)
  else if method = "copyWithin" then
    let toIdx := optIndexArg args 0 0 len
    let fromIdx := optIndexArg args 1 0 len
    let fin := optIndexArg args 2 len len
    let count := min (fin - fromIdx) (len - toIdx)
    let seg := (xs.drop fromIdx).take count
    xs.take toIdx ++ seg ++ xs.drop (toIdx + count)
  else xs

/-! The proxy traps.  In the source the trap receives the raw target and
looks its metadata (owning replicant and path) up in the registries;
here the target is recovered from the replicant's root value at the
proxy's metadata path, so resolution comes first — the unresolvable case
stands for the "arrived at ... trap without any metadata" error and is
not exercised by any claim.  The authoritative (server, non-BROWSER)
side is modelled: raw writes are applied locally.  `proxyRecursive`
wrapping of written values is shape-preserving, so the written tree is
used directly; the registry bookkeeping is modelled separately (see
`ProxyState` below).  Side effects are also reported as a trace. -/

/-- An observable side effect of a trap, in order of occurrence. -/
inductive TrapEffect where
  | enqueued (op : Operation)
  | rawWrite (path : String) (prop : String) (v : JsValue)
  | rawDelete (path : String) (prop : String)
  | mutatorApplied (path : String) (method : String)

/-- The shared body of `CHILD_OBJECT_HANDLER.set` and
`CHILD_ARRAY_HANDLER.set` (the two are textually identical in the
source).  `path` is the proxy's metadata path. -/
def setTrap (r : Replicant) (path : String) (prop : String) (newValue : JsValue) :
    TrapResult × Replicant × List TrapEffect :=
  let pathArr := pathStrToPathArr path
  match getPath r.value pathArr with
  | none => (.threw "arrived at set trap without any metadata", r, [])
  | some target =>
    if strictEq (getPropJs target prop) newValue then (.ok true, r, [])
    else if r.ignoring then
      (.ok true,
       { r with value := setNodeAtPath r.value pathArr (setProp target prop newValue) },
       [.rawWrite path prop newValue])
    else
      let afterValidation :=
        if r.schema.isSome then
          validateCall r (setNodeAtPath r.value pathArr (setProp target prop newValue))
            ⟨none⟩
        else (.ok true, r)
      match afterValidation with
      | (.threw msg, r1) => (.threw msg, r1, [])
      | (_, r1) =>
        let op : Operation :=
          if hasOwnProp target prop then ⟨path, "update", .propNewValue prop newValue⟩
          else ⟨path, "add", .propNewValue prop newValue⟩
        let r2 := { r1 with operationQueue := r1.operationQueue ++ [op] }
        let r3 := { r2 with value := setNodeAtPath r2.value pathArr (setProp target prop newValue) }
        (.ok true, r3, [.enqueued op, .rawWrite path prop newValue])

/-- Source `deleteTrap`, shared by both handlers. -/
def deleteTrap (r : Replicant) (path : String) (prop : String) :
    TrapResult × Replicant × List TrapEffect :=
  let pathArr := pathStrToPathArr path
  match getPath r.value pathArr with
  | none => (.threw "arrived at delete trap without any metadata", r, [])
  | some target =>
    if r.ignoring then
      (.ok true,
       { r with value := setNodeAtPath r.value pathArr (delProp target prop) },
       [.rawDelete path prop])
    else if !hasOwnProp target prop then (.ok true, r, [])
    else
      let afterValidation :=
        if r.schema.isSome then
          validateCall r (setNodeAtPath r.value pathArr (delProp target prop)) ⟨none⟩
        else (.ok true, r)
      match afterValidation with
      | (.threw msg, r1) => (.threw msg, r1, [])
      | (_, r1) =>
        let op : Operation := ⟨path, "delete", .propOnly prop⟩
        let r2 := { r1 with operationQueue := r1.operationQueue ++ [op] }
        let r3 := { r2 with value := setNodeAtPath r2.value pathArr (delProp target prop) }
        (.ok true, r3, [.enqueued op, .rawDelete path prop])

/-- The wrapper that `CHILD_ARRAY_HANDLER.get` returns when a recognized
array-mutator method is read with interception active, applied to
`args`: schema dry run on a clone, then (between an ignore/resume pair,
which nets to no change of the flag) enqueue the operation — whose
`args` payload is `Array.prototype.slice.call(args)`, a bare argument
list — apply the real mutator, and re-proxy (shape-preserving). -/
def arrayMutatorTrap (r : Replicant) (path : String) (method : String)
    (args : List JsValue) : TrapResult × Replicant × List TrapEffect :=
  let pathArr := pathStrToPathArr path
  match getPath r.value pathArr with
  | none => (.threw "arrived at get trap without any metadata", r, [])
  | some target =>
    match target with
    | .arr id elems =>
      let mutated := .arr id (applyArrayMutator method elems args)
      let afterValidation :=
        if r.schema.isSome then
          validateCall r (setNodeAtPath r.value pathArr mutated) ⟨none⟩
        else (.ok true, r)
      match afterValidation with
      | (.threw msg, r1) => (.threw msg, r1, [])
      | (_, r1) =>
        let op : Operation := ⟨path, method, .mutatorList args⟩
        let r2 := { r1 with operationQueue := r1.operationQueue ++ [op] }
        let r3 := { r2 with value := setNodeAtPath r2.value pathArr mutated }
        (.ok true, r3, [.enqueued op, .mutatorApplied path method])
    | _ =>
      -- Unreachable: the wrapper is only produced when the target's own
      -- method is identical to the Array prototype's, so the target is
      -- an array.
      (.threw "mutator wrapper invoked on a non-array target", r, [])

/-- One proxied mutation call: a property write, a property delete, or a
recognized array-mutator call. -/
inductive MutationCall where
  | set (path prop : String) (newValue : JsValue)
  | del (path prop : String)
  | mutator (path method : String) (args : List JsValue)

/-- Dispatches a mutation call to its trap. -/
def runMutation (r : Replicant) : MutationCall → TrapResult × Replicant × List TrapEffect
  | .set path prop v => setTrap r path prop v
  | .del path prop => deleteTrap r path prop
  | .mutator path m args => arrayMutatorTrap r path m args

/-- The mutated clone each trap submits to the validation gate
(`clone(replicant.value)` followed by the prospective mutation at the
metadata path). -/
def mutatedCloneOf (r : Replicant) : MutationCall → Option JsValue
  | .set path prop v =>
    (getPath r.value (pathStrToPathArr path)).map
      (fun t => setNodeAtPath r.value (pathStrToPathArr path) (setProp t prop v))
  | .del path prop =>
    (getPath r.value (pathStrToPathArr path)).map
      (fun t => setNodeAtPath r.value (pathStrToPathArr path) (delProp t prop))
  | .mutator path m args =>
    match getPath r.value (pathStrToPathArr path) with
    | some (.arr id elems) =>
      some (setNodeAtPath r.value (pathStrToPathArr path)
        (.arr id (applyArrayMutator m elems args)))
    | _ => none

/-- Whether a mutation call reaches the validation gate: the target
resolves, a write is not the strict-equal no-op, a delete finds an own
property, and a mutator call addresses an array by a recognized method. -/
def reachesValidation (r : Replicant) : MutationCall → Bool
  | .set path prop v =>
    match getPath r.value (pathStrToPathArr path) with
    | some t => !strictEq (getPropJs t prop) v
    | none => false
  | .del path prop =>
    match getPath r.value (pathStrToPathArr path) with
    | some t => hasOwnProp t prop
    | none => false
  | .mutator path m _ =>
    ARRAY_MUTATOR_METHODS.contains m &&
      match getPath r.value (pathStrToPathArr path) with
      | some (.arr _ _) => true
      | _ => false

/-- Source `_applyOperation`.  `ignoreProxy(this)` at entry; array
mutators are dispatched by the method string, others by the `switch`;
`resumeProxy(this)` runs only on the single normal exit — the three
throw sites return with the replicant still suspended, exactly as in the
source. -/
def _applyOperation (r : Replicant) (op : Operation) : TrapResult × Replicant :=
  let r1 := { r with ignoring := true }
  let path := pathStrToPathArr op.path
  if ARRAY_MUTATOR_METHODS.contains op.method then
    if !isObjectLike r1.value then
      (.threw "expected replicant to have a value with type object", r1)
    else
      match getPath r1.value path with
      | some (.arr id elems) =>
        let mutated := JsValue.arr id (applyArrayMutator op.method elems (argsAsList op.args))
        -- After the real mutation the target is re-proxied
        -- (shape-preserving, registry bookkeeping not tracked here).
        (.ok true, { r1 with value := setNodeAtPath r1.value path mutated, ignoring := false })
      | _ => (.threw "expected to find an array in replicant at path", r1)
  else if op.method = "overwrite" then
    (.ok true, { r1 with value := argsNewValueJs op.args, ignoring := false })
  else if op.method = "add" ∨ op.method = "update" then
    let fullPath := path ++ [argsPropJs op.args]
    (.ok true, { r1 with value := objectPathSet r1.value fullPath (argsNewValueJs op.args), ignoring := false })
  else if op.method = "delete" then
    match getPath r1.value path with
    | some target =>
      (.ok true, { r1 with value := setNodeAtPath r1.value path (delProp target (argsPropJs op.args)), ignoring := false })
    | none => (.ok true, { r1 with ignoring := false })
  else
    (.threw "Unexpected operation method", r1)

/-- The `AbstractReplicant` constructor (lines 50-71): reject a falsy
name or namespace (the empty string; a non-string argument is outside
this typed embedding), default `persistent` to `true` and
`persistenceInterval` to `DEFAULT_PERSISTENCE_INTERVAL` when omitted,
and start with `revision = 0` (field initializer).  The `status` field
has no initializer in the shared file and is set by the concrete
subclasses outside it; it starts as `undeclared` per the spec's status
progression. -/
def mkReplicant (name : String) (nsp : String) (opts : OptionsT) :
    Except String Replicant :=
  if name = "" then .error "Must supply a name when instantiating a Replicant"
  else if nsp = "" then .error "Must supply a namespace when instantiating a Replicant"
  else
    .ok
      { name := name
        nsp := nsp
        opts :=
          { opts with
            persistent := some (opts.persistent.getD true)
            persistenceInterval := some (opts.persistenceInterval.getD DEFAULT_PERSISTENCE_INTERVAL) }
        revision := 0
        status := .undeclared
        schema := none
        validationErrors := []
        value := .undefined
        operationQueue := []
        ignoring := false }

/-! Change-listener wiring of the constructor (lines 73-95).  Listeners
are identified by numeric tokens; `calls` is the trace of listener
invocations (listener, argument), in order.  Emitting `change` models a
flush notification; Node's `EventEmitter` emits `newListener` before the
listener is added and drops a `once` listener after its first
invocation. -/

/-- The listener-visible state of a replicant. -/
structure EventedReplicant where
  status : Status
  value : JsValue
  /-- Registered `change` listeners in order, tagged with whether they
  are one-shot. -/
  listeners : List (Nat × Bool)
  /-- Invocation trace: (listener, argument). -/
  calls : List (Nat × JsValue)

/-- The overridden `once` of the constructor: for `change` on a declared
replicant, invoke the listener immediately with the current value and do
not register it; otherwise defer to the original `once` (registration as
a one-shot listener — for a `change` listener in a non-declared state
the `newListener` hook then does nothing). -/
def onceChange (s : EventedReplicant) (fid : Nat) : EventedReplicant :=
  if s.status = .declared then { s with calls := s.calls ++ [(fid, s.value)] }
  else { s with listeners := s.listeners ++ [(fid, true)] }

/-- `on('change', fn)`: the `newListener` hook fires first (invoking the
listener immediately with the current value when declared), then the
listener is registered. -/
def onChange (s : EventedReplicant) (fid : Nat) : EventedReplicant :=
  if s.status = .declared then
    { s with
      calls := s.calls ++ [(fid, s.value)]
      listeners := s.listeners ++ [(fid, false)] }
  else { s with listeners := s.listeners ++ [(fid, false)] }

/-- Emitting `change` (as a flush does): every registered listener is
invoked in order, and one-shot listeners are dropped. -/
def emitChange (s : EventedReplicant) (arg : JsValue) : EventedReplicant :=
  { s with
    calls := s.calls ++ s.listeners.map (fun l => (l.1, arg))
    listeners := s.listeners.filter (fun l => !l.2) }

/-- The number of times listener `fid` has been invoked. -/
def countCalls (fid : Nat) (s : EventedReplicant) : Nat :=
  s.calls.countP (fun c => c.1 == fid)

/-! The ownership registries and `proxyRecursive`.  Replicant identity
is modelled by the (namespace, name) pair; the weak maps are association
lists keyed by the identity tokens of composite nodes.  The source keeps
one shared metadata record per raw value, aliased from both maps; the
aliasing of later path updates is not observable in the claims proved
here and the two maps are kept separately. -/

/-- The identity of an owning replicant, as the cross-ownership error
reports it. -/
structure Owner where
  ns : String
  oname : String
deriving DecidableEq

/-- One metadata record: the owning replicant and the node's current
path. -/
structure MetaEntry where
  owner : Owner
  mpath : String
deriving DecidableEq

/-- The module-level registries: `metadataMap` (raw value → metadata),
`proxyMetadataMap` (proxy → metadata), `proxySet`, plus a supply of
fresh identity tokens for newly created proxies. -/
structure ProxyState where
  metadataMap : List (Nat × MetaEntry)
  proxyMetadataMap : List (Nat × MetaEntry)
  proxySet : List Nat
  fresh : Nat
deriving DecidableEq

/-- The metadata lookup of `assertSingleOwner`: the proxy map when the
value is a proxy, the raw map otherwise. -/
def foundMeta (st : ProxyState) (vid : Nat) : Option MetaEntry :=
  if vid ∈ st.proxySet then st.proxyMetadataMap.lookup vid
  else st.metadataMap.lookup vid

/-- The message of the cross-ownership error (source lines 646-653; the
JSON dump of the offending value is not modelled). -/
def crossOwnershipMsg (o : Owner) : String :=
  "This object belongs to another Replicant, " ++ o.ns ++ "::" ++ o.oname ++
    ". A given object cannot belong to multiple Replicants."

/-- Source `assertSingleOwner`: `some msg` models the throw. -/
def assertSingleOwner (st : ProxyState) (owner : Owner) (vid : Nat) : Option String :=
  match foundMeta st vid with
  | none => none
  | some m => if m.owner ≠ owner then some (crossOwnershipMsg m.owner) else none

/-- Updates the path of the entries with key `vid` (association-list
keys are unique in reachable states). -/
def updateMetaPath (m : List (Nat × MetaEntry)) (vid : Nat) (path : String) :
    List (Nat × MetaEntry) :=
  m.map (fun e => if e.1 = vid then (e.1, { e.2 with mpath := path }) else e)

/-- The registration step of `proxyRecursive` after the ownership check:
an existing proxy or raw value only has its path updated; a fresh value
gets a metadata record and a newly allocated proxy (the source stores
one shared record in both maps; both copies here carry the same owner). -/
def registerValue (st : ProxyState) (owner : Owner) (vid : Nat) (path : String) :
    ProxyState :=
  if vid ∈ st.proxySet then
    { st with proxyMetadataMap := updateMetaPath st.proxyMetadataMap vid path }
  else if (st.metadataMap.lookup vid).isSome then
    { st with metadataMap := updateMetaPath st.metadataMap vid path }
  else
    { st with
      metadataMap := st.metadataMap ++ [(vid, ⟨owner, path⟩)]
      proxySet := st.proxySet ++ [st.fresh]
      proxyMetadataMap := st.proxyMetadataMap ++ [(st.fresh, ⟨owner, path⟩)]
      fresh := st.fresh + 1 }

mutual

/-- Source `proxyRecursive`: primitives pass through; a composite is
ownership-checked, registered (or re-pathed), and its own enumerable
children are recursively proxied with `/`-escaped path segments.  The
returned tree stands for the proxy (shape-preserving). -/
def proxyRec (owner : Owner) (v : JsValue) (path : String) (st : ProxyState) :
    Except String JsValue × ProxyState :=
  match v with
  | .obj vid fields =>
    match assertSingleOwner st owner vid with
    | some err => (.error err, st)
    | none =>
      let st1 := registerValue st owner vid path
      match proxyFields owner fields path st1 with
      | (.error e, st2) => (.error e, st2)
      | (.ok fields2, st2) => (.ok (.obj vid fields2), st2)
  | .arr vid elems =>
    match assertSingleOwner st owner vid with
    | some err => (.error err, st)
    | none =>
      let st1 := registerValue st owner vid path
      match proxyElems owner elems 0 path st1 with
      | (.error e, st2) => (.error e, st2)
      | (.ok elems2, st2) => (.ok (.arr vid elems2), st2)
  | w => (.ok w, st)

/-- The `for key in value` loop over object fields: each child is
proxied at `joinPathParts path escapedKey` (or at the bare escaped key
when the parent path is the empty string) and written back. -/
def proxyFields (owner : Owner) (fields : List (String × JsValue)) (path : String)
    (st : ProxyState) : Except String (List (String × JsValue)) × ProxyState :=
  match fields with
  | [] => (.ok [], st)
  | (key, child) :: rest =>
    let escapedKey := escapeKey key
    let childPath := if path = "" then escapedKey else joinPathParts path escapedKey
    match proxyRec owner child childPath st with
    | (.error e, st2) => (.error e, st2)
    | (.ok child2, st2) =>
      match proxyFields owner rest path st2 with
      | (.error e, st3) => (.error e, st3)
      | (.ok rest2, st3) => (.ok ((key, child2) :: rest2), st3)

/-- The same loop over array elements; the enumerable keys of an array
are its index strings, which contain no `/`, so escaping is the
identity. -/
def proxyElems (owner : Owner) (elems : List JsValue) (i : Nat) (path : String)
    (st : ProxyState) : Except String (List JsValue) × ProxyState :=
  match elems with
  | [] => (.ok [], st)
  | child :: rest =>
    let childPath := if path = "" then toString i else joinPathParts path (toString i)
    match proxyRec owner child childPath st with
    | (.error e, st2) => (.error e, st2)
    | (.ok child2, st2) =>
      match proxyElems owner rest (i + 1) path st2 with
      | (.error e, st3) => (.error e, st3)
      | (.ok rest2, st3) => (.ok (child2 :: rest2), st3)

end

/-- The identity token of a composite value. -/
def compositeId : JsValue → Option Nat
  | .arr vid _ => some vid
  | .obj vid _ => some vid
  | _ => none

/-- A registry state in which every registered metadata record (in
either map) is bound to `owner`. -/
def allBoundTo (st : ProxyState) (owner : Owner) : Prop :=
  (∀ p ∈ st.metadataMap, p.2.owner = owner) ∧
    (∀ p ∈ st.proxyMetadataMap, p.2.owner = owner)

/-- The operation the set trap enqueues: `update` when the target
already has the property as its own, `add` otherwise; the payload names
the property and the new value. -/
def mkSetOperation (t : JsValue) (path prop : String) (v : JsValue) : Operation :=
  if hasOwnProp t prop then ⟨path, "update", .propNewValue prop v⟩
  else ⟨path, "add", .propNewValue prop v⟩

/-! Concrete inputs used by the witnesses and counterexamples below. -/

/-- A declared, schema-less replicant with an undefined value. -/
def baseReplicant : Replicant :=
  { name := "rep"
    nsp := "bundle"
    opts := ⟨none, none, none, none⟩
    revision := 0
    status := .declared
    schema := none
    validationErrors := []
    value := .undefined
    operationQueue := []
    ignoring := false }

/-- A replicant whose value is `{ a: { b: [1, 2] } }`. -/
def sampleNestedRep : Replicant :=
  { baseReplicant with
    value := .obj 0 [("a", .obj 1 [("b", .arr 2 [.num 1, .num 2])])] }

/-- A replicant whose value is `{ xs: [1, 2, 3] }`. -/
def sampleArrayRep : Replicant :=
  { baseReplicant with value := .obj 0 [("xs", .arr 1 [.num 1, .num 2, .num 3])] }

/-- A replicant whose value is `{ xs: 42 }` — no array at `/xs`. -/
def sampleNoArrayRep : Replicant :=
  { baseReplicant with value := .obj 0 [("xs", .num 42)] }

/-- A compiled validator requiring the `count` field to be a number. -/
def countIsNum : CompiledValidator :=
  { check := fun v =>
      match getProp v "count" with
      | some (.num _) => true
      | _ => false
    errorsFor := fun _ => ["data.count is the wrong type"] }

/-- A schema-bearing replicant whose value is `{ count: 1 }`. -/
def countRep : Replicant :=
  { baseReplicant with
    schema := some countIsNum
    value := .obj 0 [("count", .num 1)] }

/-- Replicant identity A. -/
def ownerA : Owner := ⟨"nsA", "repA"⟩

/-- Replicant identity B. -/
def ownerB : Owner := ⟨"nsB", "repB"⟩

/-- A registry in which the node with identity token 1 is owned by A. -/
def stateOwned1ByA : ProxyState := ⟨[(1, ⟨ownerA, "/x"⟩)], [], [], 100⟩

/-- A registry in which the node with identity token 2 is owned by A. -/
def stateOwned2ByA : ProxyState := ⟨[(2, ⟨ownerA, "/x"⟩)], [], [], 100⟩

/-- An empty registry. -/
def emptyProxyState : ProxyState := ⟨[], [], [], 0⟩

/-- A composite with no metadata of its own whose child (token 1) is
owned by A in `stateOwned1ByA`. -/
def valueWithForeignChild : JsValue := .obj 0 [("x", .obj 1 [])]

/-- A declared evented replicant with value `{ n: 0 }` and no
listeners. -/
def declaredEvented : EventedReplicant :=
  ⟨.declared, .obj 0 [("n", .num 0)], [], []⟩

/-- The spine of a `/`-rooted path: each segment prefixed by a slash
(used to describe the character list `pathOfKeys` produces). -/
def slashSegs : List (List Char) → List Char
  | [] => []
  | e :: es => '/' :: (e ++ slashSegs es)

/-! # Theorems -/

/-- Listeners not registered under `fid` contribute no invocations of
`fid` when `change` is emitted. -/
theorem countP_emit_zero (ls : List (Nat × Bool)) (arg : JsValue) (fid : Nat)
    (hf : fid ∉ ls.map Prod.fst) :
    (ls.map (fun l => (l.1, arg))).countP (fun c => c.1 == fid) = 0 := by
  induction ls with
  | nil => rfl
  | cons a rest ih =>
    simp only [List.map_cons, List.mem_cons, not_or] at hf
    simp only [List.map_cons, List.countP_cons]
    rw [ih hf.2]
    simp only [Nat.zero_add]
    simp [Ne.symm hf.1]

/-- C10: on a replicant with no schema, `validate` is the stub: it
returns `true` for every value and every options record, never throws,
and leaves the replicant (in particular `validationErrors`) untouched. -/
theorem c10_schemaless_validate_is_stub (r : Replicant) (v : JsValue)
    (opts : ValidatorOptionsT) (h : r.schema = none) :
    validateCall r v opts = (.ok true, r) := by
  unfold validateCall
  rw [h]

/-- C10 witness: the stub accepts an arbitrary value on a concrete
schema-less replicant, even with `throwOnInvalid` set. -/
theorem c10_witness :
    validateCall baseReplicant (.str "anything") ⟨some true⟩ = (.ok true, baseReplicant) :=
  c10_schemaless_validate_is_stub baseReplicant (.str "anything") ⟨some true⟩ rfl

/-- C9: constructing a replicant with an empty name or namespace fails;
on success the revision starts at 0, `persistent` defaults to `true` and
`persistenceInterval` to 100 when omitted, and caller-supplied values
for either option are kept unchanged. -/
theorem c9_constructor_defaults (name nsp : String) (opts : OptionsT) :
    ((name = "" ∨ nsp = "") → ∃ e, mkReplicant name nsp opts = .error e) ∧
    (name ≠ "" → nsp ≠ "" →
      ∃ r, mkReplicant name nsp opts = .ok r ∧
        r.revision = 0 ∧
        r.opts.persistent = some (opts.persistent.getD true) ∧
        r.opts.persistenceInterval = some (opts.persistenceInterval.getD DEFAULT_PERSISTENCE_INTERVAL) ∧
        (∀ b, opts.persistent = some b → r.opts.persistent = some b) ∧
        (∀ n, opts.persistenceInterval = some n → r.opts.persistenceInterval = some n)) := by
  constructor
  · rintro (h | h)
    · exact ⟨_, by rw [mkReplicant, if_pos h]⟩
    · by_cases hn : name = ""
      · exact ⟨_, by rw [mkReplicant, if_pos hn]⟩
      · exact ⟨_, by rw [mkReplicant, if_neg hn, if_pos h]⟩
  · intro h1 h2
    refine ⟨_, by rw [mkReplicant, if_neg h1, if_neg h2], rfl, rfl, rfl, ?_, ?_⟩
    · intro b hb
      simp [hb]
    · intro n hn
      simp [hn]

/-- C9 witness: a successful construction with `persistent` supplied and
`persistenceInterval` omitted keeps the former and defaults the
latter. -/
theorem c9_witness :
    ∃ r, mkReplicant "rep" "bundle" ⟨some false, none, none, none⟩ = .ok r ∧
      r.revision = 0 ∧ r.opts.persistent = some false ∧
      r.opts.persistenceInterval = some 100 := by
  obtain ⟨r, hok, hrev, hpers, hint, hkeepP, hkeepI⟩ :=
    (c9_constructor_defaults "rep" "bundle" ⟨some false, none, none, none⟩).2
      (by decide) (by decide)
  exact ⟨r, hok, hrev, hkeepP false rfl, hint⟩

/-- C8: a proxied write whose new value is strict-equal to the current
one returns `true` and is a complete no-op — no validation, no enqueue,
no change to the replicant or the target. -/
theorem c8_strict_equal_write_noop (r : Replicant) (path prop : String)
    (v t : JsValue)
    (ht : getPath r.value (pathStrToPathArr path) = some t)
    (heq : strictEq (getPropJs t prop) v = true) :
    setTrap r path prop v = (.ok true, r, []) := by
  simp only [setTrap]
  rw [ht]
  simp [heq]

/-- C8 witness: rewriting index 1 of `/a/b` with the value it already
holds is a no-op on a concrete replicant. -/
theorem c8_witness :
    setTrap sampleNestedRep "/a/b" "1" (.num 2) = (.ok true, sampleNestedRep, []) :=
  c8_strict_equal_write_noop sampleNestedRep "/a/b" "1" (.num 2)
    (.arr 2 [.num 1, .num 2]) (by rfl) (by rfl)

/-- C6: on a declared replicant, `once('change', fn)` invokes `fn`
exactly once, synchronously, with the current value, without registering
it — so a later flush does not invoke it again; `on('change', fn)` also
invokes `fn` synchronously with the current value and additionally keeps
it registered, so a later flush invokes it once more. -/
theorem c6_once_and_on_change (s : EventedReplicant) (f g : Nat) (arg : JsValue)
    (hdecl : s.status = .declared)
    (hf : f ∉ s.listeners.map Prod.fst)
    (hg : g ∉ s.listeners.map Prod.fst) :
    (onceChange s f).calls = s.calls ++ [(f, s.value)] ∧
    (onceChange s f).listeners = s.listeners ∧
    countCalls f (emitChange (onceChange s f) arg) = countCalls f (onceChange s f) ∧
    (onChange s g).calls = s.calls ++ [(g, s.value)] ∧
    (onChange s g).listeners = s.listeners ++ [(g, false)] ∧
    countCalls g (emitChange (onChange s g) arg) = countCalls g (onChange s g) + 1 := by
  have honce : onceChange s f = { s with calls := s.calls ++ [(f, s.value)] } := by
    unfold onceChange
    rw [if_pos hdecl]
  have hon : onChange s g =
      { s with
        calls := s.calls ++ [(g, s.value)]
        listeners := s.listeners ++ [(g, false)] } := by
    unfold onChange
    rw [if_pos hdecl]
  refine ⟨by rw [honce], by rw [honce], ?_, by rw [hon], by rw [hon], ?_⟩
  · rw [honce]
    unfold emitChange countCalls
    simp only [List.countP_append]
    rw [countP_emit_zero s.listeners arg f hf]
    omega
  · rw [hon]
    unfold emitChange countCalls
    simp only [List.map_append, List.countP_append]
    rw [countP_emit_zero s.listeners arg g hg]
    simp

/-- C6 witness: on a concrete declared replicant, the one-shot fires
once with the current value, stays unregistered, and does not re-fire on
the next flush; a plain listener fires immediately and again on the next
flush. -/
theorem c6_witness :
    (onceChange declaredEvented 1).calls = declaredEvented.calls ++ [(1, declaredEvented.value)] ∧
    (onceChange declaredEvented 1).listeners = declaredEvented.listeners ∧
    countCalls 1 (emitChange (onceChange declaredEvented 1) (.num 5)) =
      countCalls 1 (onceChange declaredEvented 1) ∧
    (onChange declaredEvented 2).calls = declaredEvented.calls ++ [(2, declaredEvented.value)] ∧
    (onChange declaredEvented 2).listeners = declaredEvented.listeners ++ [(2, false)] ∧
    countCalls 2 (emitChange (onChange declaredEvented 2) (.num 5)) =
      countCalls 2 (onChange declaredEvented 2) + 1 :=
  c6_once_and_on_change declaredEvented 1 2 (.num 5) rfl (by simp [declaredEvented])
    (by simp [declaredEvented])


/-- C7: a proxied write of a non-strict-equal value with interception
active enqueues a single operation — method `update` when the target
already has the property as its own, `add` otherwise, with payload
`(prop, newValue)` — and the enqueue precedes the raw write, which
applies the value to the target. -/
theorem c7_write_enqueues_update_or_add (r : Replicant) (path prop : String)
    (v t : JsValue)
    (hig : r.ignoring = false)
    (ht : getPath r.value (pathStrToPathArr path) = some t)
    (hneq : strictEq (getPropJs t prop) v = false)
    (hval : ∀ sv, r.schema = some sv →
      sv.check (setNodeAtPath r.value (pathStrToPathArr path) (setProp t prop v)) = true) :
    setTrap r path prop v =
      (.ok true,
       { r with
         operationQueue := r.operationQueue ++ [mkSetOperation t path prop v]
         value := setNodeAtPath r.value (pathStrToPathArr path) (setProp t prop v) },
       [.enqueued (mkSetOperation t path prop v), .rawWrite path prop v]) := by
  simp only [setTrap]
  rw [ht]
  simp only [hneq, hig, Bool.false_eq_true, if_false]
  cases hs : r.schema with
  | none => simp [validateCall, hs, hig, mkSetOperation]
  | some sv =>
    have hc := hval sv hs
    simp [validateCall, hs, hig, hc, mkSetOperation]

/-- C7 witness: on `{ a: { b: [1, 2] } }`, writing 9 at index 1 of
`/a/b` enqueues the operation before the raw write; index 1 exists, so
the method is `update` with payload `("1", 9)`. -/
theorem c7_witness :
    setTrap sampleNestedRep "/a/b" "1" (.num 9) =
      (.ok true,
       { sampleNestedRep with
         operationQueue := sampleNestedRep.operationQueue ++
           [mkSetOperation (.arr 2 [.num 1, .num 2]) "/a/b" "1" (.num 9)]
         value := setNodeAtPath sampleNestedRep.value (pathStrToPathArr "/a/b")
           (setProp (.arr 2 [.num 1, .num 2]) "1" (.num 9)) },
       [.enqueued (mkSetOperation (.arr 2 [.num 1, .num 2]) "/a/b" "1" (.num 9)),
        .rawWrite "/a/b" "1" (.num 9)]) :=
  c7_write_enqueues_update_or_add sampleNestedRep "/a/b" "1" (.num 9)
    (.arr 2 [.num 1, .num 2]) (by rfl) (by rfl) (by rfl)
    (fun sv h => by simp [sampleNestedRep, baseReplicant] at h)



/-- C1: on a schema-bearing replicant, any proxied write, delete, or
recognized array-mutator call whose mutated clone fails schema
validation throws the validation error, appends nothing to the
operation queue, leaves the value (hence the raw target) unchanged, and
performs no raw effect. -/
theorem c1_schema_rejection (r : Replicant) (c : MutationCall)
    (sv : CompiledValidator) (w : JsValue)
    (hig : r.ignoring = false)
    (hsch : r.schema = some sv)
    (hreach : reachesValidation r c = true)
    (hclone : mutatedCloneOf r c = some w)
    (hfail : sv.check w = false) :
    (runMutation r c).1 = .threw (validationMessage r.name r.nsp) ∧
    (runMutation r c).2.1.value = r.value ∧
    (runMutation r c).2.1.operationQueue = r.operationQueue ∧
    (runMutation r c).2.2 = [] := by
  cases c with
  | set path prop v =>
    cases hgp : getPath r.value (pathStrToPathArr path) with
    | none => simp [reachesValidation, hgp] at hreach
    | some t =>
      simp only [reachesValidation, hgp, Bool.not_eq_true'] at hreach
      simp only [mutatedCloneOf, hgp, Option.map_some', Option.some.injEq] at hclone
      subst hclone
      simp only [runMutation, setTrap]
      rw [hgp]
      simp [hreach, hig, validateCall, hsch, hfail]
  | del path prop =>
    cases hgp : getPath r.value (pathStrToPathArr path) with
    | none => simp [reachesValidation, hgp] at hreach
    | some t =>
      simp only [reachesValidation, hgp] at hreach
      simp only [mutatedCloneOf, hgp, Option.map_some', Option.some.injEq] at hclone
      subst hclone
      simp only [runMutation, deleteTrap]
      rw [hgp]
      simp [hig, hreach, validateCall, hsch, hfail]
  | mutator path m args =>
    cases hgp : getPath r.value (pathStrToPathArr path) with
    | none => simp [reachesValidation, hgp] at hreach
    | some t =>
      have harr : ∃ i es, t = JsValue.arr i es := by
        cases t <;> simp [reachesValidation, hgp] at hreach
        exact ⟨_, _, rfl⟩
      obtain ⟨i, es, rfl⟩ := harr
      simp only [mutatedCloneOf, hgp, Option.some.injEq] at hclone
      subst hclone
      simp only [runMutation, arrayMutatorTrap]
      rw [hgp]
      simp [validateCall, hsch, hfail]

/-- C1 witness: with a schema requiring `count` to be a number, the
write `value.count = "oops"` throws, leaves the queue empty, the value
unchanged, and performs no raw effect. -/
theorem c1_witness :
    (runMutation countRep (.set "/" "count" (.str "oops"))).1 =
      .threw (validationMessage countRep.name countRep.nsp) ∧
    (runMutation countRep (.set "/" "count" (.str "oops"))).2.1.value = countRep.value ∧
    (runMutation countRep (.set "/" "count" (.str "oops"))).2.1.operationQueue =
      countRep.operationQueue ∧
    (runMutation countRep (.set "/" "count" (.str "oops"))).2.2 = [] :=
  c1_schema_rejection countRep (.set "/" "count" (.str "oops")) countIsNum
    (.obj 0 [("count", .str "oops")]) (by rfl) (by rfl) (by rfl) (by rfl) (by rfl)



/-- C3: the claim asserts that `_applyOperation` always leaves the
suspended set (`isIgnoringProxy` false) even when it throws.  The code
calls `ignoreProxy(this)` at entry but `resumeProxy(this)` only on the
normal exit, so a throwing operation — here a `push` addressed at a path
holding no array — leaves the replicant suspended: interception starts
out active, the call throws, and the replicant is still ignoring
afterwards. -/
theorem c3_throw_leaves_replicant_suspended :
    sampleNoArrayRep.ignoring = false ∧
    (_applyOperation sampleNoArrayRep ⟨"/xs", "push", .mutatorList [.num 4]⟩).1 =
      .threw "expected to find an array in replicant at path" ∧
    (_applyOperation sampleNoArrayRep ⟨"/xs", "push", .mutatorList [.num 4]⟩).2.ignoring =
      true := by
  refine ⟨by rfl, by rfl, by rfl⟩



/-- C2 counterexample: calling `push(4, 5)` on the proxied array at
`/xs` enqueues an operation whose `args` payload is the bare argument
list `[4, 5]` (`Array.prototype.slice.call(args)`), which is not the
`(prop, mutatorArgs)` record the claim (and the `Operation` type
declaration) announce. -/
theorem c2_counterexample :
    (arrayMutatorTrap sampleArrayRep "/xs" "push" [.num 4, .num 5]).2.1.operationQueue =
      [⟨"/xs", "push", .mutatorList [.num 4, .num 5]⟩] ∧
    (⟨"/xs", "push", .mutatorList [.num 4, .num 5]⟩ : Operation) ≠
      ⟨"/xs", "push", .propMutatorArgs "xs" [.num 4, .num 5]⟩ := by
  refine ⟨by rfl, ?_⟩
  intro h
  simp at h

/-- C2 amended: a recognized array-mutator call on a proxied array with
interception active (and a passing dry run) enqueues exactly one
operation carrying the sequence's path as `path`, the mutator name as
`method`, and as `args` the bare list of the literal arguments passed to
the mutator — not a `(prop, mutatorArgs)` record. -/
theorem c2_amended_mutator_enqueue (r : Replicant) (path method : String)
    (args : List JsValue) (i : Nat) (es : List JsValue)
    (hig : r.ignoring = false)
    (hm : method ∈ ARRAY_MUTATOR_METHODS)
    (ht : getPath r.value (pathStrToPathArr path) = some (.arr i es))
    (hval : ∀ sv, r.schema = some sv →
      sv.check (setNodeAtPath r.value (pathStrToPathArr path)
        (.arr i (applyArrayMutator method es args))) = true) :
    arrayMutatorTrap r path method args =
      (.ok true,
       { r with
         operationQueue := r.operationQueue ++ [⟨path, method, .mutatorList args⟩]
         value := setNodeAtPath r.value (pathStrToPathArr path)
           (.arr i (applyArrayMutator method es args)) },
       [.enqueued ⟨path, method, .mutatorList args⟩, .mutatorApplied path method]) := by
  simp only [arrayMutatorTrap]
  rw [ht]
  cases hs : r.schema with
  | none => simp [validateCall, hs]
  | some sv => simp [validateCall, hs, hval sv hs]

/-- C2 amended witness: `push(4, 5)` at `/xs` on `{ xs: [1, 2, 3] }`
enqueues `(path /xs, method push, args [4, 5])` and extends the raw
array. -/
theorem c2_amended_witness :
    arrayMutatorTrap sampleArrayRep "/xs" "push" [.num 4, .num 5] =
      (.ok true,
       { sampleArrayRep with
         operationQueue := sampleArrayRep.operationQueue ++
           [⟨"/xs", "push", .mutatorList [.num 4, .num 5]⟩]
         value := setNodeAtPath sampleArrayRep.value (pathStrToPathArr "/xs")
           (.arr 1 (applyArrayMutator "push" [.num 1, .num 2, .num 3] [.num 4, .num 5])) },
       [.enqueued ⟨"/xs", "push", .mutatorList [.num 4, .num 5]⟩,
        .mutatorApplied "/xs" "push"]) :=
  c2_amended_mutator_enqueue sampleArrayRep "/xs" "push" [.num 4, .num 5] 1
    [.num 1, .num 2, .num 3] (by rfl) (by decide) (by rfl)
    (fun sv h => by simp [sampleArrayRep, baseReplicant] at h)



/-- A successful association-list lookup is a membership. -/
theorem lookup_mem_pairs {β : Type} (k : Nat) (v : β) :
    ∀ l : List (Nat × β), l.lookup k = some v → (k, v) ∈ l := by
  intro l
  induction l with
  | nil => intro h; simp [List.lookup] at h
  | cons a rest ih =>
    intro h
    obtain ⟨k1, b⟩ := a
    by_cases hk : k = k1
    · subst hk
      simp [List.lookup] at h
      subst h
      exact List.mem_cons_self _ _
    · have hb : (k == k1) = false := by simp [hk]
      simp [List.lookup, hb] at h
      exact List.mem_cons_of_mem _ (ih h)

/-- In a registry bound entirely to `owner`, every metadata lookup
returns a record owned by `owner`. -/
theorem allBoundTo_foundMeta (st : ProxyState) (owner : Owner) (vid : Nat)
    (m : MetaEntry) (h : allBoundTo st owner) (hm : foundMeta st vid = some m) :
    m.owner = owner := by
  unfold foundMeta at hm
  split at hm
  · exact h.2 (vid, m) (lookup_mem_pairs _ _ _ hm)
  · exact h.1 (vid, m) (lookup_mem_pairs _ _ _ hm)

/-- In a registry bound entirely to `owner`, the single-owner assertion
never fires. -/
theorem assertSingleOwner_none_of_allBoundTo (st : ProxyState) (owner : Owner)
    (vid : Nat) (h : allBoundTo st owner) :
    assertSingleOwner st owner vid = none := by
  unfold assertSingleOwner
  cases hm : foundMeta st vid with
  | none => rfl
  | some m =>
    have ho := allBoundTo_foundMeta st owner vid m h hm
    simp [ho]

/-- Re-pathing preserves the owner of every entry. -/
theorem allBoundTo_updateMetaPath (m : List (Nat × MetaEntry)) (owner : Owner)
    (vid : Nat) (path : String) (h : ∀ p ∈ m, p.2.owner = owner) :
    ∀ p ∈ updateMetaPath m vid path, p.2.owner = owner := by
  intro p hp
  unfold updateMetaPath at hp
  rcases List.mem_map.1 hp with ⟨q, hq, hpq⟩
  subst hpq
  by_cases hqv : q.1 = vid
  · rw [if_pos hqv]
    exact h q hq
  · rw [if_neg hqv]
    exact h q hq

/-- The registration step writes only records owned by the current
owner, so a fully-bound registry stays fully bound. -/
theorem allBoundTo_registerValue (st : ProxyState) (owner : Owner) (vid : Nat)
    (path : String) (h : allBoundTo st owner) :
    allBoundTo (registerValue st owner vid path) owner := by
  unfold registerValue
  split
  · exact ⟨h.1, allBoundTo_updateMetaPath _ _ _ _ h.2⟩
  · split
    · exact ⟨allBoundTo_updateMetaPath _ _ _ _ h.1, h.2⟩
    · constructor
      · intro p hp
        rcases List.mem_append.1 hp with hp | hp
        · exact h.1 p hp
        · simp at hp
          rw [hp]
      · intro p hp
        rcases List.mem_append.1 hp with hp | hp
        · exact h.2 p hp
        · simp at hp
          rw [hp]

mutual

/-- In a registry bound entirely to `owner`, `proxyRecursive` never
throws and keeps the registry fully bound. -/
theorem proxyRec_ok_of_allBoundTo (owner : Owner) (v : JsValue) (path : String)
    (st : ProxyState) (h : allBoundTo st owner) :
    (proxyRec owner v path st).1.isOk = true ∧
      allBoundTo (proxyRec owner v path st).2 owner := by
  cases v with
  | obj vid fields =>
    have ha := assertSingleOwner_none_of_allBoundTo st owner vid h
    have h1 := allBoundTo_registerValue st owner vid path h
    have h2 := proxyFields_ok_of_allBoundTo owner fields path
      (registerValue st owner vid path) h1
    cases hpf : proxyFields owner fields path (registerValue st owner vid path) with
    | mk res st2 =>
      rw [hpf] at h2
      cases res with
      | error e => exact absurd h2.1 (by simp [Except.isOk, Except.toBool])
      | ok fields2 =>
        have h3 : allBoundTo st2 owner := h2.2
        constructor
        · simp only [proxyRec.eq_def, ha, hpf]
          rfl
        · simp only [proxyRec.eq_def, ha, hpf]
          exact h3
  | arr vid elems =>
    have ha := assertSingleOwner_none_of_allBoundTo st owner vid h
    have h1 := allBoundTo_registerValue st owner vid path h
    have h2 := proxyElems_ok_of_allBoundTo owner elems 0 path
      (registerValue st owner vid path) h1
    cases hpf : proxyElems owner elems 0 path (registerValue st owner vid path) with
    | mk res st2 =>
      rw [hpf] at h2
      cases res with
      | error e => exact absurd h2.1 (by simp [Except.isOk, Except.toBool])
      | ok elems2 =>
        have h3 : allBoundTo st2 owner := h2.2
        constructor
        · simp only [proxyRec.eq_def, ha, hpf]
          rfl
        · simp only [proxyRec.eq_def, ha, hpf]
          exact h3
  | undefined => simp only [proxyRec.eq_def]; exact ⟨rfl, h⟩
  | null => simp only [proxyRec.eq_def]; exact ⟨rfl, h⟩
  | bool b => simp only [proxyRec.eq_def]; exact ⟨rfl, h⟩
  | num n => simp only [proxyRec.eq_def]; exact ⟨rfl, h⟩
  | str s0 => simp only [proxyRec.eq_def]; exact ⟨rfl, h⟩

/-- Field recursion preserves success and full binding. -/
theorem proxyFields_ok_of_allBoundTo (owner : Owner)
    (fields : List (String × JsValue)) (path : String) (st : ProxyState)
    (h : allBoundTo st owner) :
    (proxyFields owner fields path st).1.isOk = true ∧
      allBoundTo (proxyFields owner fields path st).2 owner := by
  cases fields with
  | nil => simp only [proxyFields.eq_def]; exact ⟨rfl, h⟩
  | cons kv rest =>
    obtain ⟨key, child⟩ := kv
    have hc := proxyRec_ok_of_allBoundTo owner child
      (if path = "" then escapeKey key else joinPathParts path (escapeKey key)) st h
    cases hpc : proxyRec owner child
        (if path = "" then escapeKey key else joinPathParts path (escapeKey key)) st with
    | mk res st2 =>
      rw [hpc] at hc
      cases res with
      | error e => exact absurd hc.1 (by simp [Except.isOk, Except.toBool])
      | ok child2 =>
        have hr := proxyFields_ok_of_allBoundTo owner rest path st2 hc.2
        cases hpr : proxyFields owner rest path st2 with
        | mk res2 st3 =>
          rw [hpr] at hr
          cases res2 with
          | error e => exact absurd hr.1 (by simp [Except.isOk, Except.toBool])
          | ok rest2 =>
            have h3 : allBoundTo st3 owner := hr.2
            constructor
            · rw [proxyFields.eq_def]
              simp only [hpc, hpr, Except.isOk, Except.toBool]
            · rw [proxyFields.eq_def]
              simp only [hpc, hpr]
              exact h3

/-- Element recursion preserves success and full binding. -/
theorem proxyElems_ok_of_allBoundTo (owner : Owner) (elems : List JsValue)
    (i : Nat) (path : String) (st : ProxyState) (h : allBoundTo st owner) :
    (proxyElems owner elems i path st).1.isOk = true ∧
      allBoundTo (proxyElems owner elems i path st).2 owner := by
  cases elems with
  | nil => simp only [proxyElems.eq_def]; exact ⟨rfl, h⟩
  | cons child rest =>
    have hc := proxyRec_ok_of_allBoundTo owner child
      (if path = "" then toString i else joinPathParts path (toString i)) st h
    cases hpc : proxyRec owner child
        (if path = "" then toString i else joinPathParts path (toString i)) st with
    | mk res st2 =>
      rw [hpc] at hc
      cases res with
      | error e => exact absurd hc.1 (by simp [Except.isOk, Except.toBool])
      | ok child2 =>
        have hr := proxyElems_ok_of_allBoundTo owner rest (i + 1) path st2 hc.2
        cases hpr : proxyElems owner rest (i + 1) path st2 with
        | mk res2 st3 =>
          rw [hpr] at hr
          cases res2 with
          | error e => exact absurd hr.1 (by simp [Except.isOk, Except.toBool])
          | ok rest2 =>
            have h3 : allBoundTo st3 owner := hr.2
            constructor
            · rw [proxyElems.eq_def]
              simp only [hpc, hpr, Except.isOk, Except.toBool]
            · rw [proxyElems.eq_def]
              simp only [hpc, hpr]
              exact h3

end



/-- C4 amended: (i) proxying a composite whose metadata is bound to a
different replicant A throws the cross-ownership error identifying A
before touching anything, so the registries — and, since the caller
aborts, B's value tree — are unchanged; (ii) proxying a primitive never
throws; (iii) proxying a composite never throws for ownership reasons
provided every registered metadata record (in particular that of every
descendant) is bound to the proxying replicant — a composite may itself
carry no metadata and still throw when a descendant is owned by another
replicant. -/
theorem c4_cross_ownership (st : ProxyState) (owner : Owner) (v : JsValue)
    (path : String) :
    (∀ vid m, compositeId v = some vid → foundMeta st vid = some m →
      m.owner ≠ owner →
      proxyRec owner v path st = (.error (crossOwnershipMsg m.owner), st)) ∧
    (compositeId v = none → proxyRec owner v path st = (.ok v, st)) ∧
    (allBoundTo st owner → (proxyRec owner v path st).1.isOk = true) := by
  refine ⟨?_, ?_, ?_⟩
  · intro vid m hcid hfm hne
    have ha : assertSingleOwner st owner vid = some (crossOwnershipMsg m.owner) := by
      unfold assertSingleOwner
      rw [hfm]
      simp [hne]
    cases v with
    | obj vid2 fields =>
      simp only [compositeId, Option.some.injEq] at hcid
      subst hcid
      rw [proxyRec.eq_def]
      simp only [ha]
    | arr vid2 elems =>
      simp only [compositeId, Option.some.injEq] at hcid
      subst hcid
      rw [proxyRec.eq_def]
      simp only [ha]
    | undefined => exact absurd hcid (by simp [compositeId])
    | null => exact absurd hcid (by simp [compositeId])
    | bool b => exact absurd hcid (by simp [compositeId])
    | num n => exact absurd hcid (by simp [compositeId])
    | str s0 => exact absurd hcid (by simp [compositeId])
  · intro hcid
    cases v with
    | obj vid2 fields => exact absurd hcid (by simp [compositeId])
    | arr vid2 elems => exact absurd hcid (by simp [compositeId])
    | undefined => rw [proxyRec.eq_def]
    | null => rw [proxyRec.eq_def]
    | bool b => rw [proxyRec.eq_def]
    | num n => rw [proxyRec.eq_def]
    | str s0 => rw [proxyRec.eq_def]
  · intro h
    exact (proxyRec_ok_of_allBoundTo owner v path st h).1

/-- C4 counterexample: the claim's second clause fails — `v` itself
carries no metadata (`foundMeta` is `none` for its token 0), yet
proxying it for B throws the cross-ownership error for A, because the
recursion reaches the child (token 1) owned by A. -/
theorem c4_counterexample :
    foundMeta stateOwned1ByA 0 = none ∧
    (proxyRec ownerB valueWithForeignChild "/y" stateOwned1ByA).1 =
      .error (crossOwnershipMsg ownerA) := by
  constructor
  · rfl
  · have h0 : assertSingleOwner stateOwned1ByA ownerB 0 = none := by rfl
    have h1 : assertSingleOwner (registerValue stateOwned1ByA ownerB 0 "/y") ownerB 1 =
        some (crossOwnershipMsg ownerA) := by rfl
    simp only [valueWithForeignChild, proxyRec.eq_def, proxyFields.eq_def, h0, h1]

/-- C4 witness: on concrete inputs, (i) a composite with metadata bound
to A throws the error naming A and leaves the registry unchanged when
proxied for B; (ii) a primitive passes through untouched; (iii) a
composite with no metadata anywhere proxies without throwing. -/
theorem c4_witness :
    proxyRec ownerB (.obj 2 []) "/y" stateOwned2ByA =
      (.error (crossOwnershipMsg ownerA), stateOwned2ByA) ∧
    proxyRec ownerB (.num 7) "/y" stateOwned2ByA = (.ok (.num 7), stateOwned2ByA) ∧
    (proxyRec ownerB valueWithForeignChild "/y" emptyProxyState).1.isOk = true := by
  refine ⟨?_, ?_, ?_⟩
  · exact (c4_cross_ownership stateOwned2ByA ownerB (.obj 2 []) "/y").1 2
      ⟨ownerA, "/x"⟩ rfl (by rfl) (by decide)
  · exact (c4_cross_ownership stateOwned2ByA ownerB (.num 7) "/y").2.1 rfl
  · exact (c4_cross_ownership emptyProxyState ownerB valueWithForeignChild "/y").2.2
      ⟨fun p hp => by simp [emptyProxyState] at hp,
       fun p hp => by simp [emptyProxyState] at hp⟩



/-- Escaping never leaves a slash in the segment. -/
theorem escCh_no_slash (l : List Char) : '/' ∉ escCh l := by
  induction l with
  | nil => simp [escCh]
  | cons c r ih =>
    by_cases hc : c = '/'
    · rw [escCh, if_pos hc]
      intro hmem
      rcases List.mem_cons.1 hmem with h1 | hmem2
      · exact absurd h1 (by decide)
      rcases List.mem_cons.1 hmem2 with h2 | hmem3
      · exact absurd h2 (by decide)
      · exact ih hmem3
    · rw [escCh, if_neg hc]
      intro hmem
      rcases List.mem_cons.1 hmem with h1 | hmem2
      · exact hc h1.symm
      · exact ih hmem2

/-- Escaping preserves non-emptiness. -/
theorem escCh_eq_nil (l : List Char) : escCh l = [] ↔ l = [] := by
  cases l with
  | nil => simp [escCh]
  | cons c r =>
    rw [escCh]
    split <;> simp

/-- A `~1`-free list has a `~1`-free tail. -/
theorem hasT1_tail (c : Char) (r : List Char)
    (h : hasSubstrT1 (c :: r) = false) : hasSubstrT1 r = false := by
  cases r with
  | nil => rfl
  | cons d t =>
    rw [hasSubstrT1] at h
    split at h
    · exact absurd h (by simp)
    · exact h

/-- If an escaped list starts with `1`, so did the original. -/
theorem escCh_head_one (l t : List Char) (h : escCh l = '1' :: t) :
    ∃ r, l = '1' :: r := by
  cases l with
  | nil => simp [escCh] at h
  | cons c r =>
    rw [escCh] at h
    split at h
    · injection h with h1 h2
      exact absurd h1 (by decide)
    · injection h with h1 h2
      exact ⟨r, by rw [h1]⟩

/-- Unescaping inverts escaping on keys that do not contain the
substring `~1`. -/
theorem unesc_esc (l : List Char) (h : hasSubstrT1 l = false) :
    unescCh (escCh l) = l := by
  induction l with
  | nil => rfl
  | cons c r ih =>
    by_cases hc : c = '/'
    · subst hc
      rw [escCh, if_pos rfl]
      have hu : unescCh ('~' :: '1' :: escCh r) = '/' :: unescCh (escCh r) := by
        rw [unescCh, if_pos ⟨rfl, rfl⟩]
      rw [hu, ih (hasT1_tail _ _ h)]
    · rw [escCh, if_neg hc]
      cases he : escCh r with
      | nil =>
        have hr : r = [] := (escCh_eq_nil r).1 he
        subst hr
        rfl
      | cons d t =>
        have hne : ¬(c = '~' ∧ d = '1') := by
          rintro ⟨hc1, hd1⟩
          obtain ⟨r2, hr2⟩ := escCh_head_one r t (hd1 ▸ he)
          rw [hr2, hc1] at h
          rw [hasSubstrT1, if_pos ⟨rfl, rfl⟩] at h
          exact Bool.noConfusion h
        rw [unescCh, if_neg hne, ← he, ih (hasT1_tail _ _ h)]

/-- Splitting a slash-free list yields that single segment. -/
theorem splitSlash_no_slash (l : List Char) (h : '/' ∉ l) :
    splitSlash l = [l] := by
  induction l with
  | nil => rfl
  | cons c r ih =>
    have hc : ¬ c = '/' := fun hcc => h (hcc ▸ List.mem_cons_self c r)
    rw [splitSlash, if_neg hc, ih (fun hm => h (List.mem_cons_of_mem _ hm))]

/-- Splitting after a slash-free prefix peels off that segment. -/
theorem splitSlash_append (e rest : List Char) (h : '/' ∉ e) :
    splitSlash (e ++ '/' :: rest) = e :: splitSlash rest := by
  induction e with
  | nil =>
    simp only [List.nil_append]
    rw [splitSlash, if_pos rfl]
  | cons c e2 ih =>
    have hc : ¬ c = '/' := fun hcc => h (hcc ▸ List.mem_cons_self c e2)
    simp only [List.cons_append]
    rw [splitSlash, if_neg hc, ih (fun hm => h (List.mem_cons_of_mem _ hm))]

/-- A slash-free list does not end in a slash. -/
theorem getLast?_ne_slash (l : List Char) (h : '/' ∉ l) :
    l.getLast? ≠ some '/' := by
  intro hl
  have hx : '/' ∈ l.getLast? := by rw [hl]; rfl
  obtain ⟨hne, hx2⟩ := List.mem_getLast?_eq_getLast hx
  exact h (hx2 ▸ List.getLast_mem hne)

/-- The path built by folding `joinPathParts` over escaped keys, from
any accumulator that is non-empty and does not end in a slash, is the
accumulator followed by the slash-prefixed escaped segments. -/
theorem foldl_join_data (ks : List String) :
    ∀ p : String, p.data ≠ [] → p.data.getLast? ≠ some '/' →
    (∀ k ∈ ks, k.data ≠ []) →
    (ks.foldl (fun a k => joinPathParts a (escapeKey k)) p).data =
      p.data ++ slashSegs (ks.map (fun k => escCh k.data)) := by
  induction ks with
  | nil =>
    intro p _ _ _
    simp [slashSegs]
  | cons k ks2 ih =>
    intro p hp hpl hk
    have hkd : k.data ≠ [] := hk k (List.mem_cons_self _ _)
    have hesc_ne : escCh k.data ≠ [] := fun hz => hkd ((escCh_eq_nil k.data).1 hz)
    have hjoin : (joinPathParts p (escapeKey k)).data = p.data ++ '/' :: escCh k.data := by
      unfold joinPathParts escapeKey
      rw [if_neg hpl]
    have hlast : ('/' :: escCh k.data).getLast? = (escCh k.data).getLast? := by
      rw [show ('/' :: escCh k.data) = ['/'] ++ escCh k.data from rfl]
      exact List.getLast?_append_of_ne_nil _ hesc_ne
    rw [List.foldl_cons]
    rw [ih (joinPathParts p (escapeKey k)) (by rw [hjoin]; simp)
      (by rw [hjoin, List.getLast?_append_of_ne_nil _ (by simp), hlast]
          exact getLast?_ne_slash _ (escCh_no_slash k.data))
      (fun k2 hk2 => hk k2 (List.mem_cons_of_mem _ hk2))]
    rw [hjoin, List.map_cons, slashSegs]
    simp [List.append_assoc]

/-- Splitting a slash-free head followed by slash-prefixed segments
recovers exactly the segments. -/
theorem splitSlash_slashSegs (es : List (List Char)) :
    ∀ e, '/' ∉ e → (∀ x ∈ es, '/' ∉ x) →
    splitSlash (e ++ slashSegs es) = e :: es := by
  induction es with
  | nil =>
    intro e he _
    rw [slashSegs, List.append_nil]
    exact splitSlash_no_slash e he
  | cons f es2 ih =>
    intro e he hx
    rw [slashSegs]
    rw [show e ++ '/' :: (f ++ slashSegs es2) = e ++ '/' :: (f ++ slashSegs es2) from rfl]
    rw [splitSlash_append e _ he]
    rw [ih f (hx f (List.mem_cons_self _ _)) (fun y hy => hx y (List.mem_cons_of_mem _ hy))]

/-- C5 amended: decoding an emitted path (drop the leading slash, split
on `/`, unescape `~1` in each segment) recovers the exact key sequence
from the root — provided each key is non-empty and does not itself
contain the substring `~1`; keys containing `/` are handled, but the
escaping is lossy on keys already containing `~1` (see the
counterexample). -/
theorem c5_amended (keys : List String)
    (h : ∀ k ∈ keys, k.data ≠ [] ∧ hasSubstrT1 k.data = false) :
    pathStrToPathArr (pathOfKeys keys) = keys := by
  cases keys with
  | nil => rfl
  | cons k ks =>
    have hk := h k (List.mem_cons_self _ _)
    have hesc_ne : escCh k.data ≠ [] := fun hz => hk.1 ((escCh_eq_nil k.data).1 hz)
    have hfirst : (joinPathParts "/" (escapeKey k)).data = '/' :: escCh k.data := by
      rfl
    have hlast : ('/' :: escCh k.data).getLast? = (escCh k.data).getLast? := by
      rw [show ('/' :: escCh k.data) = ['/'] ++ escCh k.data from rfl]
      exact List.getLast?_append_of_ne_nil _ hesc_ne
    have hdata : (pathOfKeys (k :: ks)).data =
        '/' :: (escCh k.data ++ slashSegs (ks.map (fun k2 => escCh k2.data))) := by
      unfold pathOfKeys
      rw [List.foldl_cons]
      rw [foldl_join_data ks (joinPathParts "/" (escapeKey k)) (by rw [hfirst]; simp)
        (by rw [hfirst, hlast]
            exact getLast?_ne_slash _ (escCh_no_slash k.data))
        (fun k2 hk2 => (h k2 (List.mem_cons_of_mem _ hk2)).1)]
      rw [hfirst]
      rfl
    simp only [pathStrToPathArr]
    rw [hdata]
    simp only [List.drop_succ_cons, List.drop_zero]
    rw [splitSlash_slashSegs (ks.map fun k2 => escCh k2.data) (escCh k.data)
      (escCh_no_slash k.data)
      (by intro x hx
          rcases List.mem_map.1 hx with ⟨k2, _, hxeq⟩
          rw [← hxeq]
          exact escCh_no_slash k2.data)]
    rw [List.map_cons, List.map_map]
    have h1 : (⟨unescCh (escCh k.data)⟩ : String) = k := by
      rw [unesc_esc k.data hk.2]
    have h2 : ks.map ((fun cs => (⟨unescCh cs⟩ : String)) ∘ fun k2 => escCh k2.data) = ks := by
      have hcong : ∀ k2 ∈ ks,
          ((fun cs => (⟨unescCh cs⟩ : String)) ∘ fun k3 => escCh k3.data) k2 = id k2 := by
        intro k2 hk2
        simp only [Function.comp_apply, id_eq]
        rw [unesc_esc k2.data (h k2 (List.mem_cons_of_mem _ hk2)).2]
      rw [List.map_congr_left hcong, List.map_id]
    rw [h1, h2]
    rw [if_neg (by
      intro hbad
      injection hbad with hb1 hb2
      exact hk.1 (by rw [hb1]))]

/-- C5 counterexample: the claim fails for a key containing `~1` — the
key "a~1b" contains no slash, so escaping leaves it unchanged, and
decoding turns the `~1` into `/`, yielding "a/b" instead of the original
key. -/
theorem c5_counterexample :
    pathStrToPathArr (pathOfKeys ["a~1b"]) = ["a/b"] ∧
    ¬pathStrToPathArr (pathOfKeys ["a~1b"]) = ["a~1b"] := by
  constructor
  · rfl
  · decide

/-- C5 witness: a key containing `/` (escaped to `~1`) and a plain key
round-trip exactly. -/
theorem c5_witness : pathStrToPathArr (pathOfKeys ["a/b", "c"]) = ["a/b", "c"] :=
  c5_amended ["a/b", "c"] (by
    intro k hk
    rcases List.mem_cons.1 hk with h1 | hk2
    · rw [h1]
      exact ⟨by decide, by decide⟩
    rcases List.mem_cons.1 hk2 with h2 | hk3
    · rw [h2]
      exact ⟨by decide, by decide⟩
    · exact absurd hk3 (by simp))


end Nodecg
